import Mathlib

/-!
Verification of the render-farm worker's process-supervision and
output-parsing core (`src/blender.js`) against its specification.

The development shallowly embeds:
* the progress-line regular expression `blenderLineRegExp` (src/blender.js:29)
  as an explicit backtracking matcher with JS `RegExp` semantics
  (leftmost match, greedy quantifiers, full backtracking, anchored `^...$`),
* `parseBlenderTime` (src/blender.js:38-41) and `parseBlenderOutputLine`
  (src/blender.js:50-67),
* the `getDevices` probe (src/blender.js:76-90), the `getData` stdout
  chunk handler (src/blender.js:100-123) and the `render` event handlers
  (src/blender.js:144-165) as functions over captured stdout / event traces.

Host builtins used by the source (`String.prototype.split`,
`String.prototype.startsWith`, `parseInt`, `parseFloat`, `JSON.parse`,
`moment.duration(...).asMilliseconds()`) are modelled explicitly below; each
model's doc comment states the subset of the builtin's behaviour it covers.
-/

set_option maxRecDepth 40000

namespace BlenderFarm

/-! ## Character classes of the regular expression -/

/-- Character class `\d` of a JS regular expression: exactly the ASCII
digits `0`-`9`. -/
def isDig (c : Char) : Bool := c.isDigit

/-- Character class `.` of a JS regular expression without the `s` flag:
any character except the four line terminators. -/
def jsDot (c : Char) : Bool :=
  !(c == '\n' || c == '\r' || c == '\u2028' || c == '\u2029')

/-- Character class `[^\|]` of the progress-line pattern: any character
other than a pipe. -/
def nonPipe (c : Char) : Bool := !(c == '|')

/-- Shape of the fixed-width timecode sub-pattern `\d{2}:\d{2}\.\d{2}`. -/
def tcShape : List Char → Bool
  | [a, b, c, d, e, f, g, h] =>
    isDig a && isDig b && c == ':' && isDig d && isDig e && f == '.' &&
      isDig g && isDig h
  | _ => false

/-! ## Named capture groups -/

/-- Named capture groups of `blenderLineRegExp` (src/blender.js:29). -/
inductive GName
  | frame | mg | rt | rem | mc | mcp | scene | layer | info | extra
deriving DecidableEq, Repr

/-- Captured text of every named group; `none` models an `undefined` group
of a JS match result. -/
structure RawGroups where
  frame : Option (List Char) := none
  mg : Option (List Char) := none
  rt : Option (List Char) := none
  rem : Option (List Char) := none
  mc : Option (List Char) := none
  mcp : Option (List Char) := none
  scene : Option (List Char) := none
  layer : Option (List Char) := none
  info : Option (List Char) := none
  extra : Option (List Char) := none
deriving DecidableEq, Repr

/-- Record the text captured by one named group. -/
def RawGroups.set (g : RawGroups) : GName → List Char → RawGroups
  | .frame, v => { g with frame := some v }
  | .mg, v => { g with mg := some v }
  | .rt, v => { g with rt := some v }
  | .rem, v => { g with rem := some v }
  | .mc, v => { g with mc := some v }
  | .mcp, v => { g with mcp := some v }
  | .scene, v => { g with scene := some v }
  | .layer, v => { g with layer := some v }
  | .info, v => { g with info := some v }
  | .extra, v => { g with extra := some v }

/-- Record a capture when the element carries a group name. -/
def setOpt (g : RawGroups) : Option GName → List Char → RawGroups
  | none, _ => g
  | some n, v => g.set n v

/-! ## The pattern as a sequence of elements

`blenderLineRegExp` is a fixed anchored sequence, so it is embedded as a
list of elements rather than through a generic regex AST.  The composite
elements keep the exact backtracking behaviour of their sub-patterns:

* `lit s` — a literal;
* `pls p n` — `X+` for a one-character class `X`, greedy, optionally
  capturing into group `n`;
* `tcode n` — the fixed-width capture `(\d{2}:\d{2}\.\d{2})`;
* `memF n` — the capture `(\d+\.\d{2})`;
* `memG n` — the capture `(\d+(.\d+)?)` (the inner dot is the unescaped
  `.` that appears verbatim in the source pattern);
* `paren` — the non-capturing `\(.+\)`;
* `opt inner` — an optional group `( ... )?`, greedy.
-/

/-- Non-optional pattern elements. -/
inductive BElem
  | lit (s : List Char)
  | pls (p : Char → Bool) (n : Option GName)
  | tcode (n : GName)
  | memF (n : GName)
  | memG (n : GName)
  | paren

/-- Pattern elements: a base element or a greedy optional group. -/
inductive Elem
  | base (b : BElem)
  | opt (inner : List BElem)

/-- Measure of one element, used to bound the matcher's fuel. -/
def esize : Elem → Nat
  | .base _ => 1
  | .opt inner => 2 + inner.length

/-- Measure of a pattern, used to bound the matcher's fuel. -/
def psize (es : List Elem) : Nat := (es.map esize).sum

/-- Try `f` at `k, k-1, ..., 1` and return the first success: the
backtracking order of a greedy quantifier. -/
def tryLens (f : Nat → Option α) : Nat → Option α
  | 0 => none
  | k + 1 => (f (k + 1)) <|> tryLens f k

/-- Anchored backtracking matcher for a pattern, with JS `RegExp`
semantics: alternatives are explored leftmost-greedy and the whole
remainder of the pattern is retried at every choice point.  `fuel` only
bounds the recursion depth; every recursive call strictly decreases
`psize`, so `psize es + 1` is always enough fuel. -/
def matchSeqF : Nat → List Elem → List Char → RawGroups → Option RawGroups
  | 0, _, _, _ => none
  | _ + 1, [], cs, g => if cs.isEmpty then some g else none
  | fuel + 1, .base (.lit s) :: rest, cs, g =>
    if s.isPrefixOf cs then matchSeqF fuel rest (cs.drop s.length) g else none
  | fuel + 1, .base (.pls p n) :: rest, cs, g =>
    tryLens (fun k => matchSeqF fuel rest (cs.drop k) (setOpt g n (cs.take k)))
      (cs.takeWhile p).length
  | fuel + 1, .base (.tcode n) :: rest, cs, g =>
    if tcShape (cs.take 8) then
      matchSeqF fuel rest (cs.drop 8) (g.set n (cs.take 8))
    else none
  | fuel + 1, .base (.memF n) :: rest, cs, g =>
    let d := cs.takeWhile isDig
    if d.isEmpty then none
    else
      match cs.drop d.length with
      | '.' :: a :: b :: cs' =>
        if isDig a && isDig b then
          matchSeqF fuel rest cs' (g.set n (d ++ ['.', a, b]))
        else none
      | _ => none
  | fuel + 1, .base (.memG n) :: rest, cs, g =>
    tryLens
      (fun a =>
        (match cs.drop a with
         | c :: cs1 =>
           if jsDot c then
             tryLens
               (fun b =>
                 matchSeqF fuel rest (cs.drop (a + 1 + b))
                   (g.set n (cs.take (a + 1 + b))))
               (cs1.takeWhile isDig).length
           else none
         | [] => none)
        <|> matchSeqF fuel rest (cs.drop a) (g.set n (cs.take a)))
      (cs.takeWhile isDig).length
  | fuel + 1, .base .paren :: rest, cs, g =>
    match cs with
    | '(' :: cs1 =>
      tryLens
        (fun k =>
          match cs1.drop k with
          | ')' :: cs2 => matchSeqF fuel rest cs2 g
          | _ => none)
        (cs1.takeWhile jsDot).length
    | _ => none
  | fuel + 1, .opt inner :: rest, cs, g =>
    (matchSeqF fuel (inner.map .base ++ rest) cs g) <|> matchSeqF fuel rest cs g

/-- The progress-line pattern of src/blender.js:29, element by element:

`^Fra:(?<frame>\d+) Mem:(?<memory_global>\d+(.\d+)?)M \(.+\) \|
Time:(?<render_time>\d{2}:\d{2}\.\d{2})
\|( Remaining:(?<remaining_time>\d{2}:\d{2}\.\d{2}) \|)?
Mem:(?<memory_current>\d+\.\d{2})M, Peak:(?<memory_current_peak>\d+\.\d{2})M
\| (?<scene>[^\|]+), (?<render_layer>[^\|]+) \| (?<information>[^\|]+)( \|
(?<extra_information>.+))?$` -/
def blenderLineRegExp : List Elem :=
  [ .base (.lit "Fra:".data)
  , .base (.pls isDig (some .frame))
  , .base (.lit " Mem:".data)
  , .base (.memG .mg)
  , .base (.lit "M ".data)
  , .base .paren
  , .base (.lit " | Time:".data)
  , .base (.tcode .rt)
  , .base (.lit " |".data)
  , .opt [.lit " Remaining:".data, .tcode .rem, .lit " |".data]
  , .base (.lit " Mem:".data)
  , .base (.memF .mc)
  , .base (.lit "M, Peak:".data)
  , .base (.memF .mcp)
  , .base (.lit "M | ".data)
  , .base (.pls nonPipe (some .scene))
  , .base (.lit ", ".data)
  , .base (.pls nonPipe (some .layer))
  , .base (.lit " | ".data)
  , .base (.pls nonPipe (some .info))
  , .opt [.lit " | ".data, .pls jsDot (some .extra)] ]

/-- Run `blenderLineRegExp.exec(line)`: the pattern is `^...$`-anchored, so
`exec` can only match at position 0 and the whole line must be consumed. -/
def blenderLineExec (line : String) : Option RawGroups :=
  matchSeqF (psize blenderLineRegExp + 1) blenderLineRegExp line.data {}

/-! ## Models of the host builtins used by `parseBlenderOutputLine` -/

/-- Value of a string of ASCII digits, most significant first. -/
def digitsVal (ds : List Char) : Nat :=
  ds.foldl (fun a c => 10 * a + (c.toNat - 48)) 0

/-- Model of JS `parseInt(s)` for the strings produced by the `frame`
capture, which are always non-empty digit strings: the decimal value of
the leading digit run.  (The sign/whitespace/radix handling of the real
builtin is dead code for these inputs.) -/
def jsParseInt (s : String) : Nat := digitsVal (s.data.takeWhile isDig)

/-- Exponent-suffix step of the `parseFloat` model: scale the mantissa by
an `[eE][+-]?\d+` suffix when one follows, and ignore everything else. -/
def jsParseFloatExp (mant : ℚ) : List Char → ℚ
  | c :: t =>
    if c == 'e' || c == 'E' then
      let neg := match t with | '-' :: _ => true | _ => false
      let t2 := match t with | '-' :: u => u | '+' :: u => u | _ => t
      let ed := t2.takeWhile isDig
      if ed.isEmpty then mant
      else if neg then mant / ((10 : ℚ) ^ digitsVal ed)
      else mant * ((10 : ℚ) ^ digitsVal ed)
    else mant
  | [] => mant

/-- Model of JS `parseFloat(s)` for strings that start with a digit, which
is the case for every capture it is applied to: the value of the longest
prefix of the form `\d+(\.\d*)?([eE][+-]?\d+)?`, as an exact rational.
(Leading whitespace, signs, `Infinity` and the NaN case of the real
builtin are dead code for these inputs.) -/
def jsParseFloat (s : String) : ℚ :=
  let cs := s.data
  let ip := cs.takeWhile isDig
  match cs.drop ip.length with
  | '.' :: t =>
    let fp := t.takeWhile isDig
    jsParseFloatExp ((digitsVal ip : ℚ) + (digitsVal fp : ℚ) / ((10 : ℚ) ^ fp.length))
      (t.drop fp.length)
  | rest => jsParseFloatExp (digitsVal ip : ℚ) rest

/-- Model of `parseBlenderTime` (src/blender.js:38-41): the source
evaluates `moment.duration('00:' + timeString).asMilliseconds()`.  For
the timecode captures `MM:SS.CC` fed to it by the grammar, the prefixed
string `00:MM:SS.CC` is read by moment as hours:minutes:seconds.fraction,
giving `MM` minutes, `SS` seconds and `CC` centiseconds; the fallback 0
is unreachable for grammar captures (they always have this shape). -/
def parseBlenderTime (timeString : String) : ℕ :=
  match timeString.data with
  | [m1, m2, ':', s1, s2, '.', c1, c2] =>
    (10 * (m1.toNat - 48) + (m2.toNat - 48)) * 60000 +
      (10 * (s1.toNat - 48) + (s2.toNat - 48)) * 1000 +
      (10 * (c1.toNat - 48) + (c2.toNat - 48)) * 10
  | _ => 0

/-! ## The parsed progress record -/

/-- Progress record built by `parseBlenderOutputLine` (the `blenderOutput`
shape documented at src/blender.js:1-4).  `Option` fields model the
`undefined` values of the two optional captures. -/
structure BlenderOutput where
  frame : ℕ
  memory_global : ℚ
  render_time : ℕ
  remaining_time : Option ℕ
  memory_current : ℚ
  memory_current_peak : ℚ
  scene : String
  render_layer : String
  information : String
  extra_information : Option String
deriving DecidableEq, Repr

/-- Model of `parseBlenderOutputLine` (src/blender.js:50-67): run the
regular expression; on no match return `none` (the source's `null`),
otherwise build the record from the named captures exactly as the source
does.  The mandatory captures are always present on a successful match;
`getD []` only totalizes the field access. -/
def parseBlenderOutputLine (line : String) : Option BlenderOutput :=
  match blenderLineExec line with
  | none => none
  | some g =>
    some
      { frame := jsParseInt (String.mk (g.frame.getD []))
      , memory_global := jsParseFloat (String.mk (g.mg.getD []))
      , render_time := parseBlenderTime (String.mk (g.rt.getD []))
      , remaining_time := g.rem.map (fun t => parseBlenderTime (String.mk t))
      , memory_current := jsParseFloat (String.mk (g.mc.getD []))
      , memory_current_peak := jsParseFloat (String.mk (g.mcp.getD []))
      , scene := String.mk (g.scene.getD [])
      , render_layer := String.mk (g.layer.getD [])
      , information := String.mk (g.info.getD [])
      , extra_information := g.extra.map String.mk }

/-! ## Model of `String.prototype.split` -/

/-- Model of JS `s.split(sep)` for a non-empty separator string, on
character lists: scan left to right, cut at every occurrence of `sep`.
`fuel` only bounds recursion depth; `s.length + 1` is always enough
because every step consumes at least one character. -/
def jsSplitF : Nat → List Char → List Char → List (List Char)
  | 0, _, s => [s]
  | fuel + 1, sep, s =>
    match s with
    | [] => [[]]
    | c :: cs =>
      if sep.isPrefixOf (c :: cs) then
        [] :: jsSplitF fuel sep ((c :: cs).drop (max sep.length 1))
      else
        match jsSplitF fuel sep cs with
        | [] => [[c]]
        | t :: ts => (c :: t) :: ts

/-- Model of JS `s.split(sep)` for a non-empty separator. -/
def jsSplit (sep s : List Char) : List (List Char) :=
  jsSplitF (s.length + 1) sep s

/-- Does `sep` occur as a contiguous subsequence of `s`? -/
def containsSeq (sep : List Char) : List Char → Bool
  | [] => sep.isEmpty
  | c :: cs => sep.isPrefixOf (c :: cs) || containsSeq sep cs

/-! ## Model of `JSON.parse` -/

/-- JSON values as decoded by `JSON.parse`.  Numbers are restricted to
integers, which covers every payload the probe scripts emit (device id
lists and frame bounds). -/
inductive Json
  | null
  | bool (b : Bool)
  | num (n : Int)
  | str (s : String)
  | arr (elems : List Json)
  | obj (members : List (String × Json))

/-- JSON whitespace. -/
def isJsonWs (c : Char) : Bool :=
  c == ' ' || c == '\t' || c == '\n' || c == '\r'

/-- Drop leading JSON whitespace. -/
def skipWs (cs : List Char) : List Char := cs.dropWhile isJsonWs

mutual

/-- One JSON value and the unconsumed remainder.  Model of the host
`JSON.parse` recursive-descent core, restricted to the JSON subset the
probe payloads use (no floats, no string escapes); on any other input it
still fails or succeeds totally, it just is not bit-for-bit the host
parser there.  Claims quantify over this function's result, so only the
concrete witness payloads rely on its exact behaviour. -/
def parseJsonVal : Nat → List Char → Except String (Json × List Char)
  | 0, _ => .error "depth limit exceeded"
  | fuel + 1, cs =>
    match skipWs cs with
    | [] => .error "unexpected end of JSON input"
    | c :: cs1 =>
      if c == 'n' then
        if "ull".data.isPrefixOf cs1 then .ok (.null, cs1.drop 3)
        else .error "unexpected token"
      else if c == 't' then
        if "rue".data.isPrefixOf cs1 then .ok (.bool true, cs1.drop 3)
        else .error "unexpected token"
      else if c == 'f' then
        if "alse".data.isPrefixOf cs1 then .ok (.bool false, cs1.drop 4)
        else .error "unexpected token"
      else if c == '"' then
        let s := cs1.takeWhile (fun d => !(d == '"'))
        match cs1.drop s.length with
        | '"' :: r => .ok (.str (String.mk s), r)
        | _ => .error "unterminated string in JSON"
      else if c == '-' then
        let ds := cs1.takeWhile isDig
        if ds.isEmpty then .error "unexpected token"
        else .ok (.num (-(digitsVal ds : Int)), cs1.drop ds.length)
      else if isDig c then
        let ds := (c :: cs1).takeWhile isDig
        .ok (.num (digitsVal ds : Int), (c :: cs1).drop ds.length)
      else if c == '[' then
        match skipWs cs1 with
        | ']' :: r => .ok (.arr [], r)
        | _ =>
          match parseJsonArrItems fuel cs1 with
          | .ok (vs, r) => .ok (.arr vs, r)
          | .error e => .error e
      else if c == '{' then
        match skipWs cs1 with
        | '}' :: r => .ok (.obj [], r)
        | _ =>
          match parseJsonObjItems fuel cs1 with
          | .ok (ms, r) => .ok (.obj ms, r)
          | .error e => .error e
      else .error "unexpected token"

/-- Comma-separated JSON array elements up to the closing bracket. -/
def parseJsonArrItems : Nat → List Char → Except String (List Json × List Char)
  | 0, _ => .error "depth limit exceeded"
  | fuel + 1, cs =>
    match parseJsonVal fuel cs with
    | .error e => .error e
    | .ok (v, r) =>
      match skipWs r with
      | ',' :: r2 =>
        match parseJsonArrItems fuel r2 with
        | .ok (vs, r3) => .ok (v :: vs, r3)
        | .error e => .error e
      | ']' :: r2 => .ok ([v], r2)
      | _ => .error "expected comma or closing bracket in JSON array"

/-- Comma-separated JSON object members up to the closing brace. -/
def parseJsonObjItems :
    Nat → List Char → Except String (List (String × Json) × List Char)
  | 0, _ => .error "depth limit exceeded"
  | fuel + 1, cs =>
    match skipWs cs with
    | '"' :: cs1 =>
      let k := cs1.takeWhile (fun d => !(d == '"'))
      match cs1.drop k.length with
      | '"' :: r =>
        match skipWs r with
        | ':' :: r2 =>
          match parseJsonVal fuel r2 with
          | .error e => .error e
          | .ok (v, r3) =>
            match skipWs r3 with
            | ',' :: r4 =>
              match parseJsonObjItems fuel r4 with
              | .ok (ms, r5) => .ok ((String.mk k, v) :: ms, r5)
              | .error e => .error e
            | '}' :: r4 => .ok ([(String.mk k, v)], r4)
            | _ => .error "expected comma or closing brace in JSON object"
        | _ => .error "expected colon in JSON object"
      | _ => .error "unterminated string in JSON"
    | _ => .error "expected string key in JSON object"

end

/-- Model of `JSON.parse(s)` on character lists: one value, then only
trailing whitespace. -/
def jsonParse (cs : List Char) : Except String Json :=
  match parseJsonVal (cs.length + 1) cs with
  | .ok (v, r) => if (skipWs r).isEmpty then .ok v else .error "unexpected trailing characters in JSON"
  | .error e => .error e

/-! ## The probe and supervisor models

The three subprocess owners are modelled by the decisions their handlers
take on the text they receive: `getDevices` on the whole captured stdout,
`getData` on one stdout chunk, `render` on a trace of subprocess events.
-/

/-- Sentinel prefix `getDataScriptPrefix` (src/blender.js:24). -/
def getDataScriptPfx : List Char := "render_farm_data=".data

/-- The newline separator of `data.toString().split('\n')`. -/
def nlSep : List Char := ['\n']

/-- Payload extraction `line.split(getDataScriptPrefix)[1]` as performed
by both probes (src/blender.js:85 and src/blender.js:113): the text
between the first and second occurrence of the sentinel (the whole
remainder when the sentinel occurs once).  The `getD` default stands for
the unreachable `undefined` (the line is known to start with the
sentinel, so the split has at least two parts). -/
def sentinelPayload (l : List Char) : List Char :=
  (jsSplit getDataScriptPfx l).getD 1 []

/-- Failure modes of `getDevices`: the `throw 'invalid stdout'` at
src/blender.js:89, or an exception escaping from `JSON.parse` at
src/blender.js:85. -/
inductive DevFailure
  | invalidStdout
  | jsonRaise (e : String)
deriving DecidableEq, Repr

/-- Model of `getDevices` (src/blender.js:76-90) as a function of the
subprocess's captured stdout: split stdout into lines, scan for the first
line starting with the sentinel prefix, decode its payload and return it;
if no line carries the prefix, throw `'invalid stdout'`.  An exception
from `JSON.parse` on the first sentinel line escapes the loop. -/
def getDevices (stdout : String) : Except DevFailure Json :=
  match (jsSplit nlSep stdout.data).find? (fun l => getDataScriptPfx.isPrefixOf l) with
  | some l =>
    match jsonParse (sentinelPayload l) with
    | .ok j => .ok j
    | .error e => .error (.jsonRaise e)
  | none => .error .invalidStdout

/-- How one `getData` stdout chunk settles the probe promise:
`resolve(json)`, `reject(reason)`, or an exception escaping the handler
(an uncaught `JSON.parse` throw). -/
inductive ChunkSettle
  | resolve (j : Json)
  | reject (reason : String)
  | raise (e : String)

/-- Outcome of running one `getData` stdout chunk handler: how it settles
the promise and whether it called `child.kill()`. -/
structure ChunkOutcome where
  settle : ChunkSettle
  killed : Bool

/-- Model of the `getData` stdout `data` handler (src/blender.js:106-121)
on one chunk: split the chunk into lines; on the first line starting with
the sentinel prefix, `JSON.parse` its payload, kill the subprocess and
resolve — a `JSON.parse` exception escapes before the kill; if no line
carries the prefix, reject with `'invalid stdout'` without killing. -/
def getDataChunk (chunk : String) : ChunkOutcome :=
  match (jsSplit nlSep chunk.data).find? (fun l => getDataScriptPfx.isPrefixOf l) with
  | some l =>
    match jsonParse (sentinelPayload l) with
    | .ok j => ⟨.resolve j, true⟩
    | .error e => ⟨.raise e, false⟩
  | none => ⟨.reject "invalid stdout", false⟩

/-- Model of the `getData` subprocess `error` handler
(src/blender.js:123): reject with the spawn error, no kill. -/
def getDataOnError (e : String) : ChunkOutcome := ⟨.reject e, false⟩

/-! ## The render supervisor as an event-trace machine -/

/-- Rejection reasons of the `render` promise: the spawn `error` event's
error object (src/blender.js:158), or the `signal` argument of the
`close` handler (src/blender.js:162) — `none` models a `null` signal. -/
inductive RenderReject
  | procError (e : String)
  | exitSignal (signal : Option String)
deriving DecidableEq, Repr

/-- State of one `render` invocation: how (and whether) its promise has
settled, and the progress records forwarded to `onprogress` so far. -/
structure RenderState where
  settled : Option (Except RenderReject Unit)
  progress : List BlenderOutput
deriving Repr

/-- Subprocess events observed by `render`'s handlers. -/
inductive REvent
  | data (chunk : String)
  | errorEv (e : String)
  | close (code : Option Int) (signal : Option String)

/-- Progress records produced by one stdout chunk (src/blender.js:146-155):
split into lines, drop empty lines (`.filter(Boolean)`), parse each and
forward every successful parse in order. -/
def chunkOutputs (chunk : String) : List BlenderOutput :=
  ((jsSplit nlSep chunk.data).map String.mk).filter (fun l => l ≠ "")
    |>.filterMap parseBlenderOutputLine

/-- Settle the promise with `o` unless it has already settled (a JS
promise keeps its first settlement). -/
def settleFirst (st : RenderState) (o : Except RenderReject Unit) : RenderState :=
  if st.settled.isSome then st else { st with settled := some o }

/-- One step of the `render` handlers (src/blender.js:146-164): a stdout
chunk only appends progress events; the `error` event rejects with the
spawn error; `close` resolves on exit code 0 (`code !== 0` is false only
for 0, a `null` code also rejects) and otherwise rejects with the
`signal` value — the exit code itself is not part of the rejection. -/
def renderStep (st : RenderState) : REvent → RenderState
  | .data chunk => { st with progress := st.progress ++ chunkOutputs chunk }
  | .errorEv e => settleFirst st (.error (.procError e))
  | .close code signal =>
    settleFirst st
      (if code = some 0 then .ok () else .error (.exitSignal signal))

/-- Run one `render` invocation over a trace of subprocess events,
starting unsettled with no progress delivered. -/
def renderRun (evs : List REvent) : RenderState :=
  evs.foldl renderStep ⟨none, []⟩

/-! ## Declarative view of a successful match

`Sem es cs g g'` over-approximates `matchSeqF`: it records how a matched
input decomposes into the pattern's parts and how the captures evolve,
dropping the greedy/priority constraints and the per-character content of
the unnamed parts (which the soundness consumers below do not need). -/

/-- Declarative decomposition of a match of pattern `es` against input
`cs`, turning captures `g` into `g'`. -/
inductive Sem : List Elem → List Char → RawGroups → RawGroups → Prop
  | nil (g : RawGroups) : Sem [] [] g g
  | lit (s : List Char) (rest : List Elem) (cs : List Char) (g g' : RawGroups) :
      Sem rest cs g g' → Sem (.base (.lit s) :: rest) (s ++ cs) g g'
  | pls (p : Char → Bool) (n : Option GName) (part : List Char)
      (rest : List Elem) (cs : List Char) (g g' : RawGroups) :
      part ≠ [] → Sem rest cs (setOpt g n part) g' →
      Sem (.base (.pls p n) :: rest) (part ++ cs) g g'
  | tcode (n : GName) (t : List Char) (rest : List Elem) (cs : List Char)
      (g g' : RawGroups) :
      tcShape t = true → Sem rest cs (g.set n t) g' →
      Sem (.base (.tcode n) :: rest) (t ++ cs) g g'
  | memF (n : GName) (t : List Char) (rest : List Elem) (cs : List Char)
      (g g' : RawGroups) :
      Sem rest cs (g.set n t) g' → Sem (.base (.memF n) :: rest) (t ++ cs) g g'
  | memG (n : GName) (t : List Char) (rest : List Elem) (cs : List Char)
      (g g' : RawGroups) :
      Sem rest cs (g.set n t) g' → Sem (.base (.memG n) :: rest) (t ++ cs) g g'
  | paren (mid : List Char) (rest : List Elem) (cs : List Char)
      (g g' : RawGroups) :
      Sem rest cs g g' →
      Sem (.base .paren :: rest) ('(' :: mid ++ ')' :: cs) g g'
  | optY (inner : List BElem) (rest : List Elem) (cs : List Char)
      (g g' : RawGroups) :
      Sem (inner.map .base ++ rest) cs g g' → Sem (.opt inner :: rest) cs g g'
  | optN (inner : List BElem) (rest : List Elem) (cs : List Char)
      (g g' : RawGroups) :
      Sem rest cs g g' → Sem (.opt inner :: rest) cs g g'

/-! ## Helper lemmas about the split model -/

/-- The fuel of `jsSplitF` is irrelevant once it exceeds the input
length. -/
theorem jsSplitF_fuel (sep : List Char) :
    ∀ f1 f2 s, s.length < f1 → s.length < f2 →
      jsSplitF f1 sep s = jsSplitF f2 sep s := by
  intro f1
  induction f1 with
  | zero => intro f2 s h1; exact absurd h1 (by omega)
  | succ f1 ih =>
    intro f2 s h1 h2
    match f2, h2 with
    | f2 + 1, h2 =>
      cases s with
      | nil => rfl
      | cons c cs =>
        simp only [jsSplitF]
        by_cases hp : sep.isPrefixOf (c :: cs)
        · simp only [hp, if_true]
          have hlen : ((c :: cs).drop (max sep.length 1)).length < f1 := by
            simp only [List.length_drop, List.length_cons] at *
            omega
          have hlen2 : ((c :: cs).drop (max sep.length 1)).length < f2 := by
            simp only [List.length_drop, List.length_cons] at *
            omega
          rw [ih f2 _ hlen hlen2]
        · simp only [hp, if_false]
          have hcs : cs.length < f1 := by simp at h1; omega
          have hcs2 : cs.length < f2 := by simp at h2; omega
          rw [ih f2 cs hcs hcs2]
          simp [Bool.false_eq_true]

/-- One unfolding step of `jsSplitF` on a cons cell. -/
theorem jsSplitF_succ_cons (fuel : Nat) (sep : List Char) (c : Char)
    (cs : List Char) :
    jsSplitF (fuel + 1) sep (c :: cs) =
      if sep.isPrefixOf (c :: cs) then
        [] :: jsSplitF fuel sep ((c :: cs).drop (max sep.length 1))
      else
        match jsSplitF fuel sep cs with
        | [] => [[c]]
        | t :: ts => (c :: t) :: ts := rfl

/-- Splitting a string that starts with the (non-empty) separator yields
an empty first part. -/
theorem jsSplit_cons_sep (sep rest : List Char) (h : sep ≠ []) :
    jsSplit sep (sep ++ rest) = [] :: jsSplit sep rest := by
  match sep, h with
  | a :: sep', _ =>
    have hp : (a :: sep').isPrefixOf (a :: (sep' ++ rest)) = true := by
      rw [List.isPrefixOf_iff_prefix]
      exact ⟨rest, by simp⟩
    have hdrop : (a :: (sep' ++ rest)).drop (max (a :: sep').length 1) = rest := by
      have hmax : max (a :: sep').length 1 = (a :: sep').length := by simp
      rw [hmax, show (a :: (sep' ++ rest)) = (a :: sep') ++ rest by simp,
        List.drop_left]
    show jsSplitF ((a :: (sep' ++ rest)).length + 1) (a :: sep')
        (a :: (sep' ++ rest)) = [] :: jsSplit (a :: sep') rest
    rw [jsSplitF_succ_cons, hp]
    simp only [eq_self_iff_true, if_true]
    rw [hdrop]
    unfold jsSplit
    congr 1
    exact jsSplitF_fuel (a :: sep') ((a :: (sep' ++ rest)).length)
      (rest.length + 1) rest
      (by simp only [List.length_cons, List.length_append]; omega) (by omega)

/-- A string without any occurrence of the separator splits into itself.
Stated on `jsSplitF` with enough fuel. -/
theorem jsSplitF_no_occurrence (sep : List Char) :
    ∀ fuel s, s.length < fuel → containsSeq sep s = false →
      jsSplitF fuel sep s = [s] := by
  intro fuel
  induction fuel with
  | zero => intro s h; exact absurd h (by omega)
  | succ fuel ih =>
    intro s hlen hocc
    cases s with
    | nil => rfl
    | cons c cs =>
      simp only [containsSeq, Bool.or_eq_false_iff] at hocc
      simp only [jsSplitF, hocc.1, Bool.false_eq_true, if_false]
      rw [ih cs (by simp at hlen; omega) hocc.2]

/-- A string without any occurrence of the separator splits into itself. -/
theorem jsSplit_no_occurrence (sep s : List Char)
    (h : containsSeq sep s = false) : jsSplit sep s = [s] :=
  jsSplitF_no_occurrence sep _ s (by omega) h

/-- When a line is the sentinel followed by text that does not itself
contain the sentinel, `line.split(prefix)[1]` is exactly that text. -/
theorem sentinelPayload_eq (rest : List Char)
    (h : containsSeq getDataScriptPfx rest = false) :
    sentinelPayload (getDataScriptPfx ++ rest) = rest := by
  unfold sentinelPayload
  rw [jsSplit_cons_sep _ _ (by decide), jsSplit_no_occurrence _ _ h]
  rfl

/-- Stdout `data` events never settle the `render` promise. -/
theorem renderRun_data_settled (chunks : List String) (st : RenderState) :
    ((chunks.map REvent.data).foldl renderStep st).settled = st.settled := by
  induction chunks generalizing st with
  | nil => rfl
  | cons c cs ih =>
    simp only [List.map_cons, List.foldl_cons]
    rw [ih]
    rfl

/-! ## Helper lemmas about the parse-float model -/

/-- A run of class characters followed by a non-class character is what
`takeWhile` keeps. -/
theorem takeWhile_append_not (p : Char → Bool) (d : List Char) (c : Char)
    (r : List Char) (hd : d.all p = true) (hc : p c = false) :
    (d ++ c :: r).takeWhile p = d := by
  induction d with
  | nil => simp [List.takeWhile_cons, hc]
  | cons x xs ih =>
    simp only [List.all_cons, Bool.and_eq_true] at hd
    simp [List.takeWhile_cons, hd.1, ih hd.2]

/-- `takeWhile` keeps a list all of whose characters are in the class. -/
theorem takeWhile_all_eq (p : Char → Bool) (d : List Char)
    (hd : d.all p = true) : d.takeWhile p = d := by
  induction d with
  | nil => rfl
  | cons x xs ih =>
    simp only [List.all_cons, Bool.and_eq_true] at hd
    simp [List.takeWhile_cons, hd.1, ih hd.2]

/-- The exponent step leaves the mantissa unchanged when no `e`/`E`
follows. -/
theorem jsParseFloatExp_noexp (mant : ℚ) :
    ∀ rest : List Char, (∀ c t, rest = c :: t → c ≠ 'e' ∧ c ≠ 'E') →
      jsParseFloatExp mant rest = mant := by
  intro rest h
  cases rest with
  | nil => rfl
  | cons c t =>
    have hc := h c t rfl
    simp only [jsParseFloatExp]
    rw [if_neg]
    simp only [Bool.or_eq_true, beq_iff_eq, not_or]
    exact hc

/-- `parseFloat` on a capture `digits.digits`: the decimal value. -/
theorem jsParseFloat_frac (d1 d2 : List Char) (h1 : d1.all isDig = true)
    (h2 : d2.all isDig = true) :
    jsParseFloat (String.mk (d1 ++ '.' :: d2))
      = (digitsVal d1 : ℚ) + (digitsVal d2 : ℚ) / 10 ^ d2.length := by
  have hip : (d1 ++ '.' :: d2).takeWhile isDig = d1 :=
    takeWhile_append_not _ _ _ _ h1 (by decide)
  have hdrop : (d1 ++ '.' :: d2).drop d1.length = '.' :: d2 := by
    rw [show d1 ++ '.' :: d2 = d1 ++ ('.' :: d2) from rfl, List.drop_left]
  have hfp : d2.takeWhile isDig = d2 := takeWhile_all_eq _ _ h2
  simp only [jsParseFloat, hip, hdrop, hfp, List.drop_length]
  exact jsParseFloatExp_noexp _ [] (by intro c t h; cases h)

/-- `parseFloat` on an all-digit capture: the integer value. -/
theorem jsParseFloat_digits (d : List Char) (h : d.all isDig = true) :
    jsParseFloat (String.mk d) = (digitsVal d : ℚ) := by
  have hip : d.takeWhile isDig = d := takeWhile_all_eq _ _ h
  simp only [jsParseFloat, hip, List.drop_length]
  exact jsParseFloatExp_noexp _ [] (by intro c t h; cases h)

/-- `parseFloat` on a capture `digits ++ c :: junk` where `c` opens
neither a fraction nor an exponent: the leading digits' value (the rest
is ignored, as with the capture `24x5`). -/
theorem jsParseFloat_junk (d1 : List Char) (c : Char) (r : List Char)
    (h1 : d1.all isDig = true) (hc : isDig c = false) (hdot : c ≠ '.')
    (he : c ≠ 'e') (hE : c ≠ 'E') :
    jsParseFloat (String.mk (d1 ++ c :: r)) = (digitsVal d1 : ℚ) := by
  have hip : (d1 ++ c :: r).takeWhile isDig = d1 :=
    takeWhile_append_not _ _ _ _ h1 hc
  have hdrop : (d1 ++ c :: r).drop d1.length = c :: r := by
    rw [show d1 ++ c :: r = d1 ++ (c :: r) from rfl, List.drop_left]
  simp only [jsParseFloat, hip, hdrop]
  split
  · next t heq => exact absurd (List.cons.inj heq).1 hdot
  · exact jsParseFloatExp_noexp _ _ (by
      intro c' t h
      cases h
      exact ⟨he, hE⟩)

/-! ## Soundness of the matcher for the declarative view -/

/-- Invert a successful `Option` alternation. -/
theorem orElse_eq_some (a b : Option α) (v : α) (h : (a <|> b) = some v) :
    a = some v ∨ (a = none ∧ b = some v) := by
  cases a with
  | none => exact Or.inr ⟨rfl, by simpa using h⟩
  | some w => exact Or.inl (by simpa using h)

/-- A successful backtracking loop succeeded at some admissible length. -/
theorem tryLens_some (f : Nat → Option α) :
    ∀ k v, tryLens f k = some v → ∃ i, 1 ≤ i ∧ i ≤ k ∧ f i = some v := by
  intro k
  induction k with
  | zero => intro v h; simp [tryLens] at h
  | succ k ih =>
    intro v h
    rcases orElse_eq_some _ _ _ h with h1 | ⟨_, h2⟩
    · exact ⟨k + 1, by omega, by omega, h1⟩
    · obtain ⟨i, hi1, hi2, hf⟩ := ih v h2
      exact ⟨i, hi1, by omega, hf⟩

/-- A prefix of the `takeWhile` run is non-empty when its length is. -/
theorem take_ne_nil_of_le_takeWhile (p : Char → Bool) (cs : List Char)
    (k : Nat) (h1 : 1 ≤ k) (h2 : k ≤ (cs.takeWhile p).length) :
    cs.take k ≠ [] := by
  have hlen : k ≤ cs.length := le_trans h2 (List.takeWhile_prefix p).length_le
  have : (cs.take k).length = k := by
    rw [List.length_take]
    omega
  intro hnil
  rw [hnil] at this
  simp at this
  omega

/-- One unfolding step of `matchSeqF` on the `paren` element. -/
theorem matchSeqF_paren (fuel : Nat) (rest : List Elem) (cs : List Char)
    (g : RawGroups) :
    matchSeqF (fuel + 1) (.base .paren :: rest) cs g
      = match cs with
        | '(' :: cs1 =>
          tryLens
            (fun k =>
              match cs1.drop k with
              | ')' :: cs2 => matchSeqF fuel rest cs2 g
              | _ => none)
            (cs1.takeWhile jsDot).length
        | _ => none := rfl

/-- The matcher is sound for the declarative view: a successful run of
`matchSeqF` exhibits a `Sem` decomposition of its input. -/
theorem matchSeqF_sound :
    ∀ fuel es cs g g', matchSeqF fuel es cs g = some g' → Sem es cs g g' := by
  intro fuel
  induction fuel with
  | zero => intro es cs g g' h; simp [matchSeqF] at h
  | succ fuel ih =>
    intro es cs g g' h
    match es with
    | [] =>
      rw [show matchSeqF (fuel + 1) [] cs g
          = if cs.isEmpty then some g else none from rfl] at h
      split at h
      · next hcs =>
        cases cs with
        | nil => cases h; exact Sem.nil g
        | cons c t => simp at hcs
      · cases h
    | .base (.lit s) :: rest =>
      rw [show matchSeqF (fuel + 1) (.base (.lit s) :: rest) cs g
          = if s.isPrefixOf cs then matchSeqF fuel rest (cs.drop s.length) g
            else none from rfl] at h
      split at h
      · next hp =>
        rw [List.isPrefixOf_iff_prefix] at hp
        obtain ⟨t, rfl⟩ := hp
        rw [List.drop_left] at h
        exact Sem.lit s rest t g g' (ih _ _ _ _ h)
      · cases h
    | .base (.pls p n) :: rest =>
      rw [show matchSeqF (fuel + 1) (.base (.pls p n) :: rest) cs g
          = tryLens
              (fun k => matchSeqF fuel rest (cs.drop k) (setOpt g n (cs.take k)))
              (cs.takeWhile p).length from rfl] at h
      obtain ⟨k, hk1, hk2, hf⟩ := tryLens_some _ _ _ h
      have hdec := (List.take_append_drop k cs).symm
      rw [show cs = cs.take k ++ cs.drop k from hdec]
      exact Sem.pls p n (cs.take k) rest (cs.drop k) g g'
        (take_ne_nil_of_le_takeWhile p cs k hk1 hk2) (ih _ _ _ _ hf)
    | .base (.tcode n) :: rest =>
      rw [show matchSeqF (fuel + 1) (.base (.tcode n) :: rest) cs g
          = if tcShape (cs.take 8) then
              matchSeqF fuel rest (cs.drop 8) (g.set n (cs.take 8))
            else none from rfl] at h
      split at h
      · next hs =>
        rw [show cs = cs.take 8 ++ cs.drop 8 from (List.take_append_drop 8 cs).symm]
        exact Sem.tcode n (cs.take 8) rest (cs.drop 8) g g' hs (ih _ _ _ _ h)
      · cases h
    | .base (.memF n) :: rest =>
      rw [show matchSeqF (fuel + 1) (.base (.memF n) :: rest) cs g
          = (if (cs.takeWhile isDig).isEmpty then none
             else
               match cs.drop (cs.takeWhile isDig).length with
               | '.' :: a :: b :: cs' =>
                 if isDig a && isDig b then
                   matchSeqF fuel rest cs'
                     (g.set n (cs.takeWhile isDig ++ ['.', a, b]))
                 else none
               | _ => none) from rfl] at h
      split at h
      · cases h
      · split at h
        · next a b cs' heq =>
          split at h
          · have hpre : cs.takeWhile isDig <+: cs := List.takeWhile_prefix isDig
            have htake : cs.take (cs.takeWhile isDig).length = cs.takeWhile isDig :=
              (List.prefix_iff_eq_take.mp hpre).symm
            have hdec : cs = cs.takeWhile isDig ++ '.' :: a :: b :: cs' := by
              conv_lhs =>
                rw [← List.take_append_drop (cs.takeWhile isDig).length cs]
              rw [htake, heq]
            generalize hD : cs.takeWhile isDig = d at h hdec
            rw [hdec,
              show d ++ '.' :: a :: b :: cs' = (d ++ ['.', a, b]) ++ cs' by simp]
            exact Sem.memF n (d ++ ['.', a, b]) rest cs' g g' (ih _ _ _ _ h)
          · cases h
        · cases h
    | .base (.memG n) :: rest =>
      rw [show matchSeqF (fuel + 1) (.base (.memG n) :: rest) cs g
          = tryLens
              (fun a =>
                (match cs.drop a with
                 | c :: cs1 =>
                   if jsDot c then
                     tryLens
                       (fun b =>
                         matchSeqF fuel rest (cs.drop (a + 1 + b))
                           (g.set n (cs.take (a + 1 + b))))
                       (cs1.takeWhile isDig).length
                   else none
                 | [] => none)
                <|> matchSeqF fuel rest (cs.drop a) (g.set n (cs.take a)))
              (cs.takeWhile isDig).length from rfl] at h
      obtain ⟨a, _, _, hf⟩ := tryLens_some _ _ _ h
      rcases orElse_eq_some _ _ _ hf with h1 | ⟨_, h2⟩
      · split at h1
        · next c cs1 heq =>
          split at h1
          · obtain ⟨b, _, _, hfb⟩ := tryLens_some _ _ _ h1
            rw [show cs = cs.take (a + 1 + b) ++ cs.drop (a + 1 + b) from
              (List.take_append_drop _ cs).symm]
            exact Sem.memG n (cs.take (a + 1 + b)) rest (cs.drop (a + 1 + b))
              g g' (ih _ _ _ _ hfb)
          · cases h1
        · cases h1
      · rw [show cs = cs.take a ++ cs.drop a from (List.take_append_drop a cs).symm]
        exact Sem.memG n (cs.take a) rest (cs.drop a) g g' (ih _ _ _ _ h2)
    | .base .paren :: rest =>
      rw [matchSeqF_paren] at h
      split at h
      · next cs1 =>
        obtain ⟨k, _, _, hf⟩ := tryLens_some _ _ _ h
        split at hf
        · next cs2 heq =>
          have hdec : cs1 = cs1.take k ++ ')' :: cs2 := by
            conv_lhs => rw [← List.take_append_drop k cs1]
            rw [heq]
          generalize cs1.take k = mid at hdec
          rw [show ('(' :: cs1 : List Char) = '(' :: mid ++ ')' :: cs2 by
            rw [hdec]; simp]
          exact Sem.paren mid rest cs2 g g' (ih _ _ _ _ hf)
        · cases hf
      · cases h
    | .opt inner :: rest =>
      rw [show matchSeqF (fuel + 1) (.opt inner :: rest) cs g
          = ((matchSeqF fuel (inner.map .base ++ rest) cs g)
              <|> matchSeqF fuel rest cs g) from rfl] at h
      rcases orElse_eq_some _ _ _ h with h1 | ⟨_, h2⟩
      · exact Sem.optY inner rest cs g g' (ih _ _ _ _ h1)
      · exact Sem.optN inner rest cs g g' (ih _ _ _ _ h2)

/-! ## Inverting the declarative view, element by element -/

/-- Invert a `Sem` of the empty pattern. -/
theorem sem_nil_inv (cs : List Char) (g g' : RawGroups)
    (h : Sem [] cs g g') : cs = [] ∧ g' = g := by
  cases h
  exact ⟨rfl, rfl⟩

/-- Invert a `Sem` opening with a literal. -/
theorem sem_lit_inv (s : List Char) (rest : List Elem) (cs : List Char)
    (g g' : RawGroups) (h : Sem (.base (.lit s) :: rest) cs g g') :
    ∃ cs', cs = s ++ cs' ∧ Sem rest cs' g g' := by
  cases h with
  | lit _ _ cs' _ _ hs => exact ⟨cs', rfl, hs⟩

/-- Invert a `Sem` opening with a one-or-more class element. -/
theorem sem_pls_inv (p : Char → Bool) (n : Option GName) (rest : List Elem)
    (cs : List Char) (g g' : RawGroups)
    (h : Sem (.base (.pls p n) :: rest) cs g g') :
    ∃ part cs', part ≠ [] ∧ cs = part ++ cs'
      ∧ Sem rest cs' (setOpt g n part) g' := by
  cases h with
  | pls _ _ part _ cs' _ _ hne hs => exact ⟨part, cs', hne, rfl, hs⟩

/-- Invert a `Sem` opening with a timecode capture. -/
theorem sem_tcode_inv (n : GName) (rest : List Elem) (cs : List Char)
    (g g' : RawGroups) (h : Sem (.base (.tcode n) :: rest) cs g g') :
    ∃ t cs', tcShape t = true ∧ cs = t ++ cs' ∧ Sem rest cs' (g.set n t) g' := by
  cases h with
  | tcode _ t _ cs' _ _ hs hsem => exact ⟨t, cs', hs, rfl, hsem⟩

/-- Invert a `Sem` opening with a `\d+\.\d{2}` capture. -/
theorem sem_memF_inv (n : GName) (rest : List Elem) (cs : List Char)
    (g g' : RawGroups) (h : Sem (.base (.memF n) :: rest) cs g g') :
    ∃ t cs', cs = t ++ cs' ∧ Sem rest cs' (g.set n t) g' := by
  cases h with
  | memF _ t _ cs' _ _ hsem => exact ⟨t, cs', rfl, hsem⟩

/-- Invert a `Sem` opening with the global-memory capture. -/
theorem sem_memG_inv (n : GName) (rest : List Elem) (cs : List Char)
    (g g' : RawGroups) (h : Sem (.base (.memG n) :: rest) cs g g') :
    ∃ t cs', cs = t ++ cs' ∧ Sem rest cs' (g.set n t) g' := by
  cases h with
  | memG _ t _ cs' _ _ hsem => exact ⟨t, cs', rfl, hsem⟩

/-- Invert a `Sem` opening with the parenthesised free-text element. -/
theorem sem_paren_inv (rest : List Elem) (cs : List Char) (g g' : RawGroups)
    (h : Sem (.base .paren :: rest) cs g g') :
    ∃ mid cs', cs = '(' :: mid ++ ')' :: cs' ∧ Sem rest cs' g g' := by
  cases h with
  | paren mid _ cs' _ _ hsem => exact ⟨mid, cs', rfl, hsem⟩

/-- Invert a `Sem` opening with an optional group. -/
theorem sem_opt_inv (inner : List BElem) (rest : List Elem) (cs : List Char)
    (g g' : RawGroups) (h : Sem (.opt inner :: rest) cs g g') :
    Sem (inner.map .base ++ rest) cs g g' ∨ Sem rest cs g g' := by
  cases h with
  | optY _ _ _ _ _ hsem => exact Or.inl hsem
  | optN _ _ _ _ _ hsem => exact Or.inr hsem

/-! ## Decomposition of matches of the whole progress-line pattern -/

/-- Walking the tail of the pattern (everything after the optional
`Remaining` group): the `rem` capture is untouched, the `extra` capture
is set exactly by a trailing ` | <extra>` piece of the input, and the
three mandatory text captures are set to non-empty strings, with the
scene/layer pair two adjacent comma-space-separated pieces of the input
between `M | ` and ` | `. -/
theorem sem_tail (cs : List Char) (g g' : RawGroups)
    (h : Sem
      [ .base (.lit " Mem:".data)
      , .base (.memF .mc)
      , .base (.lit "M, Peak:".data)
      , .base (.memF .mcp)
      , .base (.lit "M | ".data)
      , .base (.pls nonPipe (some .scene))
      , .base (.lit ", ".data)
      , .base (.pls nonPipe (some .layer))
      , .base (.lit " | ".data)
      , .base (.pls nonPipe (some .info))
      , .opt [.lit " | ".data, .pls jsDot (some .extra)] ] cs g g') :
    g'.rem = g.rem
    ∧ (g'.extra = g.extra
        ∨ ∃ pre e, cs = pre ++ " | ".data ++ e ∧ e ≠ [] ∧ g'.extra = some e)
    ∧ ∃ sc la inf, sc ≠ [] ∧ la ≠ [] ∧ inf ≠ []
        ∧ g'.scene = some sc ∧ g'.layer = some la ∧ g'.info = some inf
        ∧ ∃ pre post,
            cs = pre ++ "M | ".data ++ sc ++ ", ".data ++ la ++ " | ".data ++ post := by
  obtain ⟨cs1, rfl, h1⟩ := sem_lit_inv _ _ _ _ _ h
  obtain ⟨t1, cs2, rfl, h2⟩ := sem_memF_inv _ _ _ _ _ h1
  obtain ⟨cs3, rfl, h3⟩ := sem_lit_inv _ _ _ _ _ h2
  obtain ⟨t2, cs4, rfl, h4⟩ := sem_memF_inv _ _ _ _ _ h3
  obtain ⟨cs5, rfl, h5⟩ := sem_lit_inv _ _ _ _ _ h4
  obtain ⟨sc, cs6, hsc, rfl, h6⟩ := sem_pls_inv _ _ _ _ _ _ h5
  obtain ⟨cs7, rfl, h7⟩ := sem_lit_inv _ _ _ _ _ h6
  obtain ⟨la, cs8, hla, rfl, h8⟩ := sem_pls_inv _ _ _ _ _ _ h7
  obtain ⟨cs9, rfl, h9⟩ := sem_lit_inv _ _ _ _ _ h8
  obtain ⟨inf, cs10, hinf, rfl, h10⟩ := sem_pls_inv _ _ _ _ _ _ h9
  rcases sem_opt_inv _ _ _ _ _ h10 with h11 | h11
  · obtain ⟨cs11, rfl, h12⟩ := sem_lit_inv _ _ _ _ _ h11
    obtain ⟨e, cs12, he, rfl, h13⟩ := sem_pls_inv _ _ _ _ _ _ h12
    obtain ⟨rfl, rfl⟩ := sem_nil_inv _ _ _ h13
    refine ⟨by simp [setOpt, RawGroups.set],
      Or.inr ⟨" Mem:".data ++ t1 ++ "M, Peak:".data ++ t2 ++ "M | ".data
          ++ sc ++ ", ".data ++ la ++ " | ".data ++ inf, e, by simp, he,
        by simp [setOpt, RawGroups.set]⟩,
      sc, la, inf, hsc, hla, hinf, ?_, ?_, ?_,
      " Mem:".data ++ t1 ++ "M, Peak:".data ++ t2,
      inf ++ " | ".data ++ e, by simp⟩
    all_goals simp [setOpt, RawGroups.set]
  · obtain ⟨rfl, rfl⟩ := sem_nil_inv _ _ _ h11
    refine ⟨by simp [setOpt, RawGroups.set], Or.inl (by simp [setOpt, RawGroups.set]),
      sc, la, inf, hsc, hla, hinf, ?_, ?_, ?_,
      " Mem:".data ++ t1 ++ "M, Peak:".data ++ t2, inf, by simp⟩
    all_goals simp [setOpt, RawGroups.set]

/-- Decomposition of any match of the whole pattern, starting from empty
captures: the `rem` capture is set exactly by a ` Remaining:<tc> |` piece
of the matched line, the `extra` capture exactly by a trailing
` | <extra>` piece, and the mandatory text captures are set and
non-empty. -/
theorem sem_main (cs : List Char) (g' : RawGroups)
    (h : Sem blenderLineRegExp cs {} g') :
    (g'.rem = none
      ∨ ∃ pre t post,
          cs = pre ++ " Remaining:".data ++ t ++ " |".data ++ post
          ∧ tcShape t = true ∧ g'.rem = some t)
    ∧ (g'.extra = none
        ∨ ∃ pre e, cs = pre ++ " | ".data ++ e ∧ e ≠ [] ∧ g'.extra = some e)
    ∧ ∃ sc la inf, sc ≠ [] ∧ la ≠ [] ∧ inf ≠ []
        ∧ g'.scene = some sc ∧ g'.layer = some la ∧ g'.info = some inf
        ∧ ∃ pre post,
            cs = pre ++ "M | ".data ++ sc ++ ", ".data ++ la ++ " | ".data ++ post := by
  simp only [blenderLineRegExp] at h
  obtain ⟨cs1, rfl, h1⟩ := sem_lit_inv _ _ _ _ _ h
  obtain ⟨f, cs2, hf, rfl, h2⟩ := sem_pls_inv _ _ _ _ _ _ h1
  obtain ⟨cs3, rfl, h3⟩ := sem_lit_inv _ _ _ _ _ h2
  obtain ⟨mgc, cs4, rfl, h4⟩ := sem_memG_inv _ _ _ _ _ h3
  obtain ⟨cs5, rfl, h5⟩ := sem_lit_inv _ _ _ _ _ h4
  obtain ⟨mid, cs6, rfl, h6⟩ := sem_paren_inv _ _ _ _ h5
  obtain ⟨cs7, rfl, h7⟩ := sem_lit_inv _ _ _ _ _ h6
  obtain ⟨rtc, cs8, hrt, rfl, h8⟩ := sem_tcode_inv _ _ _ _ _ h7
  obtain ⟨cs9, rfl, h9⟩ := sem_lit_inv _ _ _ _ _ h8
  rcases sem_opt_inv _ _ _ _ _ h9 with h10 | h10
  · obtain ⟨cs10, rfl, h11⟩ := sem_lit_inv _ _ _ _ _ h10
    obtain ⟨tr, cs11, htr, rfl, h12⟩ := sem_tcode_inv _ _ _ _ _ h11
    obtain ⟨cs12, rfl, h13⟩ := sem_lit_inv _ _ _ _ _ h12
    obtain ⟨hrem, hx, sc, la, inf, hsc, hla, hinf, hgsc, hgla, hginf,
      pre2, post2, hfield⟩ := sem_tail _ _ _ h13
    refine ⟨Or.inr ⟨"Fra:".data ++ f ++ " Mem:".data ++ mgc ++ "M ".data
        ++ ('(' :: mid ++ [')']) ++ " | Time:".data ++ rtc ++ " |".data,
        tr, cs12, by simp, htr, ?_⟩, ?_,
      sc, la, inf, hsc, hla, hinf, hgsc, hgla, hginf,
      "Fra:".data ++ f ++ " Mem:".data ++ mgc ++ "M ".data
        ++ ('(' :: mid ++ [')']) ++ " | Time:".data ++ rtc ++ " |".data
        ++ " Remaining:".data ++ tr ++ " |".data ++ pre2, post2, ?_⟩
    · rw [hrem]; simp [setOpt, RawGroups.set]
    · rcases hx with hx | ⟨pre, e, hcse, hene, hxe⟩
      · exact Or.inl (by rw [hx]; simp [setOpt, RawGroups.set])
      · refine Or.inr ⟨"Fra:".data ++ f ++ " Mem:".data ++ mgc ++ "M ".data
          ++ ('(' :: mid ++ [')']) ++ " | Time:".data ++ rtc ++ " |".data
          ++ " Remaining:".data ++ tr ++ " |".data ++ pre, e, ?_, hene, hxe⟩
        rw [hcse]
        simp
    · rw [hfield]
      simp
  · obtain ⟨hrem, hx, sc, la, inf, hsc, hla, hinf, hgsc, hgla, hginf,
      pre2, post2, hfield⟩ := sem_tail _ _ _ h10
    refine ⟨Or.inl (by rw [hrem]; simp [setOpt, RawGroups.set]), ?_,
      sc, la, inf, hsc, hla, hinf, hgsc, hgla, hginf,
      "Fra:".data ++ f ++ " Mem:".data ++ mgc ++ "M ".data
        ++ ('(' :: mid ++ [')']) ++ " | Time:".data ++ rtc ++ " |".data ++ pre2,
      post2, ?_⟩
    · rcases hx with hx | ⟨pre, e, hcse, hene, hxe⟩
      · exact Or.inl (by rw [hx]; simp [setOpt, RawGroups.set])
      · refine Or.inr ⟨"Fra:".data ++ f ++ " Mem:".data ++ mgc ++ "M ".data
          ++ ('(' :: mid ++ [')']) ++ " | Time:".data ++ rtc ++ " |".data ++ pre,
          e, ?_, hene, hxe⟩
        rw [hcse]
        simp
    · rw [hfield]
      simp

/-! ## Claim theorems -/

/-- C1, counterexample.  The claim says the scene/render-layer field is
split on the FIRST comma, so the field `A, B, C` would have to give
`scene = "A"`.  The greedy regular expression actually gives
`scene = "A, B"` and `render_layer = "C"`: it splits at the last
comma-space, refuting the claim at this input. -/
theorem scene_split_first_comma_cex :
    (parseBlenderOutputLine
        "Fra:1 Mem:2M (x) | Time:00:00.00 | Mem:0.00M, Peak:0.00M | A, B, C | info").map
        (fun r => (r.scene, r.render_layer)) = some ("A, B", "C")
    ∧ ("A, B" : String) ≠ "A" :=
  ⟨rfl, by decide⟩

/-- C1, amended.  For every line matching the grammar, `scene` and
`render_layer` are two adjacent comma-space-separated pieces of the
line: `scene ++ ", " ++ render_layer` reconstructs the whole
pipe-delimited field between `M | ` and ` | `, so the pair is split at
one of the field's `", "` occurrences — but not at the first comma only:
for the multi-comma field `A, B, C` the greedy match yields
`scene = "A, B"` and `render_layer = "C"`, and for `X, Y, Z, W` it
yields `scene = "X, Y, Z"` and `render_layer = "W"`. -/
theorem scene_split_last_comma :
    (∀ (line : String) (r : BlenderOutput), parseBlenderOutputLine line = some r →
      ∃ pre post,
        line.data = pre ++ "M | ".data ++ r.scene.data ++ ", ".data
          ++ r.render_layer.data ++ " | ".data ++ post)
    ∧ (parseBlenderOutputLine
        "Fra:1 Mem:2M (x) | Time:00:00.00 | Mem:0.00M, Peak:0.00M | A, B, C | info").map
        (fun r => (r.scene, r.render_layer)) = some ("A, B", "C")
    ∧ (parseBlenderOutputLine
        "Fra:3 Mem:2M (x) | Time:00:00.00 | Mem:0.00M, Peak:0.00M | X, Y, Z, W | info").map
        (fun r => (r.scene, r.render_layer)) = some ("X, Y, Z", "W") := by
  refine ⟨?_, rfl, rfl⟩
  intro line r h
  unfold parseBlenderOutputLine at h
  cases hex : blenderLineExec line with
  | none => rw [hex] at h; cases h
  | some g =>
    rw [hex] at h
    injection h with h
    subst h
    obtain ⟨-, -, sc, la, inf, hsc, hla, hinf, hgsc, hgla, hginf, pre2, post2,
      hfield⟩ := sem_main _ _ (matchSeqF_sound _ _ _ _ _ hex)
    refine ⟨pre2, post2, ?_⟩
    show line.data = pre2 ++ "M | ".data ++ (String.mk (g.scene.getD [])).data
      ++ ", ".data ++ (String.mk (g.layer.getD [])).data ++ " | ".data ++ post2
    rw [hgsc, hgla]
    exact hfield

/-- C1, witness for the amended theorem's universal part at the
multi-comma example line. -/
theorem scene_split_last_comma_witness :
    ∃ pre post,
      ("Fra:1 Mem:2M (x) | Time:00:00.00 | Mem:0.00M, Peak:0.00M | A, B, C | info" : String).data
        = pre ++ "M | ".data ++ ("A, B" : String).data ++ ", ".data
          ++ ("C" : String).data ++ " | ".data ++ post := by
  have hex : blenderLineExec
      "Fra:1 Mem:2M (x) | Time:00:00.00 | Mem:0.00M, Peak:0.00M | A, B, C | info"
      = some
          { frame := some "1".data
          , mg := some "2".data
          , rt := some "00:00.00".data
          , rem := none
          , mc := some "0.00".data
          , mcp := some "0.00".data
          , scene := some "A, B".data
          , layer := some "C".data
          , info := some "info".data
          , extra := none } := by decide
  have hp : parseBlenderOutputLine
      "Fra:1 Mem:2M (x) | Time:00:00.00 | Mem:0.00M, Peak:0.00M | A, B, C | info"
      = some
          { frame := jsParseInt "1"
          , memory_global := jsParseFloat "2"
          , render_time := parseBlenderTime "00:00.00"
          , remaining_time := none
          , memory_current := jsParseFloat "0.00"
          , memory_current_peak := jsParseFloat "0.00"
          , scene := "A, B"
          , render_layer := "C"
          , information := "info"
          , extra_information := none } := by
    unfold parseBlenderOutputLine
    rw [hex]
    rfl
  exact scene_split_last_comma.1 _ _ hp

/-- C2, counterexample.  The claim says a close with a non-zero exit code
rejects "carrying that exit code/signal information".  The `close`
handler rejects with the `signal` value alone: for exit code 1 with a
`null` signal the rejection value is `null` and is identical to the one
produced by exit code 2, so the rejection does not carry the exit
code. -/
theorem render_reject_drops_exit_code :
    (renderRun [.close (some 1) none]).settled
        = some (.error (.exitSignal none))
    ∧ (renderRun [.close (some 2) none]).settled
        = some (.error (.exitSignal none)) :=
  ⟨rfl, rfl⟩

/-- C2, amended.  After any number of stdout chunks, a `close` with a
non-zero (or `null`) exit code rejects the promise with the signal value
only (the exit code is discarded; for a normal non-zero exit the signal
is `null`), and a `close` with exit code 0 resolves with no value. -/
theorem render_close_settles (chunks : List String) (code : Option Int)
    (signal : Option String) :
    (code ≠ some 0 →
      (renderRun (chunks.map .data ++ [.close code signal])).settled
        = some (.error (.exitSignal signal)))
    ∧ (code = some 0 →
      (renderRun (chunks.map .data ++ [.close code signal])).settled
        = some (.ok ())) := by
  have hbase :
      (renderRun (chunks.map .data ++ [.close code signal])).settled
        = some (if code = some 0 then .ok () else .error (.exitSignal signal)) := by
    unfold renderRun
    rw [List.foldl_append]
    have h1 : ((chunks.map REvent.data).foldl renderStep ⟨none, []⟩).settled = none :=
      renderRun_data_settled chunks ⟨none, []⟩
    simp only [List.foldl_cons, List.foldl_nil, renderStep, settleFirst, h1,
      Option.isSome_none, Bool.false_eq_true, if_false]
  constructor
  · intro h
    rw [hbase, if_neg h]
  · intro h
    rw [hbase, if_pos h]

/-- C2, witness for the amended theorem at concrete inputs. -/
theorem render_close_settles_witness :
    (renderRun (["banner"].map .data ++ [.close (some 1) (some "SIGKILL")])).settled
        = some (.error (.exitSignal (some "SIGKILL")))
    ∧ (renderRun (["banner"].map .data ++ [.close (some 0) none])).settled
        = some (.ok ()) :=
  ⟨(render_close_settles ["banner"] (some 1) (some "SIGKILL")).1 (by decide),
   (render_close_settles ["banner"] (some 0) none).2 rfl⟩

/-- C3.  The spec's example progress line parses to exactly the claimed
record: frame 12, 24.5 MB global memory, 83450 ms render time, 5000 ms
remaining, 20.10/22.50 MB current/peak memory, scene `SceneA`, layer
`ViewLayer`, status `Synchronizing Objects`, and no extra field. -/
theorem example_line_parses :
    parseBlenderOutputLine
        "Fra:12 Mem:24.5M (Peak 30M) | Time:01:23.45 | Remaining:00:05.00 | Mem:20.10M, Peak:22.50M | SceneA, ViewLayer | Synchronizing Objects"
      = some
          { frame := 12
          , memory_global := 24.5
          , render_time := 83450
          , remaining_time := some 5000
          , memory_current := 20.10
          , memory_current_peak := 22.50
          , scene := "SceneA"
          , render_layer := "ViewLayer"
          , information := "Synchronizing Objects"
          , extra_information := none } := by
  have h : blenderLineExec
      "Fra:12 Mem:24.5M (Peak 30M) | Time:01:23.45 | Remaining:00:05.00 | Mem:20.10M, Peak:22.50M | SceneA, ViewLayer | Synchronizing Objects"
      = some
          { frame := some "12".data
          , mg := some "24.5".data
          , rt := some "01:23.45".data
          , rem := some "00:05.00".data
          , mc := some "20.10".data
          , mcp := some "22.50".data
          , scene := some "SceneA".data
          , layer := some "ViewLayer".data
          , info := some "Synchronizing Objects".data
          , extra := none } := by decide
  have hmg : jsParseFloat (String.mk "24.5".data) = 24.5 := by
    rw [show ("24.5".data : List Char) = "24".data ++ '.' :: "5".data by decide,
      jsParseFloat_frac "24".data "5".data (by decide) (by decide),
      show digitsVal "24".data = 24 by decide, show digitsVal "5".data = 5 by decide,
      show ("5".data : List Char).length = 1 by decide]
    norm_num
  have hmc : jsParseFloat (String.mk "20.10".data) = 20.10 := by
    rw [show ("20.10".data : List Char) = "20".data ++ '.' :: "10".data by decide,
      jsParseFloat_frac "20".data "10".data (by decide) (by decide),
      show digitsVal "20".data = 20 by decide, show digitsVal "10".data = 10 by decide,
      show ("10".data : List Char).length = 2 by decide]
    norm_num
  have hmcp : jsParseFloat (String.mk "22.50".data) = 22.50 := by
    rw [show ("22.50".data : List Char) = "22".data ++ '.' :: "50".data by decide,
      jsParseFloat_frac "22".data "50".data (by decide) (by decide),
      show digitsVal "22".data = 22 by decide, show digitsVal "50".data = 50 by decide,
      show ("50".data : List Char).length = 2 by decide]
    norm_num
  simp only [parseBlenderOutputLine, h, Option.getD_some, Option.map_some',
    Option.map_none', Option.some.injEq, BlenderOutput.mk.injEq]
  exact ⟨by decide, hmg, by decide, by decide, hmc, hmcp, trivial, trivial,
    trivial, trivial⟩

/-- C4.  `parseBlenderOutputLine` is total: it is a function on all
strings, returns `none` on the empty string and on banner text such as
`Blender 2.83.0`, and on every input returns either `none` or a complete
record (the record type has no partially populated inhabitant). -/
theorem parse_total_nomatch :
    parseBlenderOutputLine "" = none
    ∧ parseBlenderOutputLine "Blender 2.83.0" = none
    ∧ ∀ line : String,
        parseBlenderOutputLine line = none
        ∨ ∃ r, parseBlenderOutputLine line = some r := by
  refine ⟨rfl, rfl, fun line => ?_⟩
  cases h : parseBlenderOutputLine line with
  | none => exact Or.inl rfl
  | some r => exact Or.inr ⟨r, rfl⟩

/-- C5, counterexample.  The claim says `remaining_time` is defined if
and only if the line contains a `Remaining:<timecode> |` segment.  This
grammar-matching line contains exactly that text (inside its
free-text sixth field), yet parses with `remaining_time` undefined and
the text landing in `extra_information`: containment does not imply
definedness. -/
theorem remaining_text_without_capture :
    ("Fra:1 Mem:2M (x) | Time:00:00.00 | Mem:0.00M, Peak:0.00M | S, L | i | Remaining:00:05.00 | x" : String).data
      = "Fra:1 Mem:2M (x) | Time:00:00.00 | Mem:0.00M, Peak:0.00M | S, L | i |".data
        ++ " Remaining:".data ++ "00:05.00".data ++ " |".data ++ " x".data
    ∧ tcShape "00:05.00".data = true
    ∧ (parseBlenderOutputLine
        "Fra:1 Mem:2M (x) | Time:00:00.00 | Mem:0.00M, Peak:0.00M | S, L | i | Remaining:00:05.00 | x").map
        (fun r => (r.remaining_time, r.extra_information))
      = some (none, some "Remaining:00:05.00 | x") :=
  ⟨by decide, by decide, rfl⟩

/-- C5, amended.  For every line matching the grammar the mandatory text
fields are populated (non-empty), and the optional fields are set exactly
when the match the engine selects includes their segment: when
`remaining_time` is defined the line contains ` Remaining:<tc> |` text
whose timecode it holds, and when `extra_information` is defined the line
ends with ` | ` followed by exactly that text.  The converse direction of
the claim's iff is dropped: segment-shaped text inside the free-text
fields does not set `remaining_time`. -/
theorem optional_fields_spec (line : String) (r : BlenderOutput)
    (h : parseBlenderOutputLine line = some r) :
    (∀ t, r.remaining_time = some t →
      ∃ pre tcs post,
        line.data = pre ++ " Remaining:".data ++ tcs ++ " |".data ++ post
        ∧ tcShape tcs = true ∧ t = parseBlenderTime (String.mk tcs))
    ∧ (∀ e, r.extra_information = some e →
      ∃ pre, line.data = pre ++ " | ".data ++ e.data ∧ e ≠ "")
    ∧ r.scene ≠ "" ∧ r.render_layer ≠ "" ∧ r.information ≠ "" := by
  unfold parseBlenderOutputLine at h
  cases hex : blenderLineExec line with
  | none => rw [hex] at h; cases h
  | some g =>
    rw [hex] at h
    injection h with h
    subst h
    have hsem : Sem blenderLineRegExp line.data {} g :=
      matchSeqF_sound _ _ _ _ _ hex
    obtain ⟨hrem, hx, sc, la, inf, hsc, hla, hinf, hgsc, hgla, hginf, -⟩ :=
      sem_main _ _ hsem
    refine ⟨?_, ?_, ?_, ?_, ?_⟩
    · intro t ht
      have ht' : g.rem.map (fun tc => parseBlenderTime (String.mk tc)) = some t := ht
      rw [Option.map_eq_some'] at ht'
      obtain ⟨tcs, hgr, htv⟩ := ht'
      rcases hrem with hnone | ⟨pre, t', post, hdec, hshape, hsome⟩
      · rw [hnone] at hgr; cases hgr
      · rw [hsome] at hgr
        injection hgr with hgr
        subst hgr
        exact ⟨pre, t', post, hdec, hshape, htv.symm⟩
    · intro e he
      have he' : g.extra.map String.mk = some e := he
      rw [Option.map_eq_some'] at he'
      obtain ⟨ed, hged, hev⟩ := he'
      rcases hx with hnone | ⟨pre, e', hdec, hene, hsome⟩
      · rw [hnone] at hged; cases hged
      · rw [hsome] at hged
        injection hged with hged
        subst hged
        refine ⟨pre, ?_, ?_⟩
        · rw [hdec, ← hev]
        · intro hcon
          apply hene
          rw [← hev] at hcon
          exact congrArg String.data hcon
    · show String.mk (g.scene.getD []) ≠ ""
      rw [hgsc, Option.getD_some]
      intro hcon
      exact hsc (congrArg String.data hcon)
    · show String.mk (g.layer.getD []) ≠ ""
      rw [hgla, Option.getD_some]
      intro hcon
      exact hla (congrArg String.data hcon)
    · show String.mk (g.info.getD []) ≠ ""
      rw [hginf, Option.getD_some]
      intro hcon
      exact hinf (congrArg String.data hcon)

/-- C5, witness for the amended theorem: a concrete line carrying both
optional segments. -/
theorem optional_fields_spec_witness :
    (∃ pre tcs post,
        ("Fra:12 Mem:24.5M (Peak 30M) | Time:01:23.45 | Remaining:00:05.00 | Mem:20.10M, Peak:22.50M | SceneA, ViewLayer | Synchronizing Objects | extra data" : String).data
          = pre ++ " Remaining:".data ++ tcs ++ " |".data ++ post
        ∧ tcShape tcs = true ∧ 5000 = parseBlenderTime (String.mk tcs))
    ∧ ∃ pre,
        ("Fra:12 Mem:24.5M (Peak 30M) | Time:01:23.45 | Remaining:00:05.00 | Mem:20.10M, Peak:22.50M | SceneA, ViewLayer | Synchronizing Objects | extra data" : String).data
          = pre ++ " | ".data ++ ("extra data" : String).data
        ∧ ("extra data" : String) ≠ "" := by
  have hex : blenderLineExec
      "Fra:12 Mem:24.5M (Peak 30M) | Time:01:23.45 | Remaining:00:05.00 | Mem:20.10M, Peak:22.50M | SceneA, ViewLayer | Synchronizing Objects | extra data"
      = some
          { frame := some "12".data
          , mg := some "24.5".data
          , rt := some "01:23.45".data
          , rem := some "00:05.00".data
          , mc := some "20.10".data
          , mcp := some "22.50".data
          , scene := some "SceneA".data
          , layer := some "ViewLayer".data
          , info := some "Synchronizing Objects".data
          , extra := some "extra data".data } := by decide
  have hp : ∃ r0, parseBlenderOutputLine
      "Fra:12 Mem:24.5M (Peak 30M) | Time:01:23.45 | Remaining:00:05.00 | Mem:20.10M, Peak:22.50M | SceneA, ViewLayer | Synchronizing Objects | extra data"
      = some r0
      ∧ r0.remaining_time = some 5000
      ∧ r0.extra_information = some "extra data" := by
    refine
      ⟨{ frame := jsParseInt "12"
       , memory_global := jsParseFloat "24.5"
       , render_time := parseBlenderTime "01:23.45"
       , remaining_time := some (parseBlenderTime "00:05.00")
       , memory_current := jsParseFloat "20.10"
       , memory_current_peak := jsParseFloat "22.50"
       , scene := "SceneA"
       , render_layer := "ViewLayer"
       , information := "Synchronizing Objects"
       , extra_information := some "extra data" }, ?_, by decide, by decide⟩
    unfold parseBlenderOutputLine
    rw [hex]
    rfl
  obtain ⟨r0, hp0, hrt, hxt⟩ := hp
  have H := optional_fields_spec _ r0 hp0
  exact ⟨H.1 5000 hrt, H.2.1 "extra data" hxt⟩

/-- C6.  The spec requires numeric fields to use decimal points only and
lines violating that to be rejected, but the global-memory sub-pattern
`\d+(.\d+)?` has an unescaped dot, so `Mem:24x5M` is accepted and
`parseFloat` truncates the capture `24x5` to 24: the line parses instead
of being rejected. -/
theorem unescaped_dot_accepts_mem24x5 :
    (parseBlenderOutputLine
        "Fra:1 Mem:24x5M (x) | Time:00:00.00 | Mem:0.00M, Peak:0.00M | A, B | info").map
        (fun r => r.memory_global) = some 24 := by
  have h : blenderLineExec
      "Fra:1 Mem:24x5M (x) | Time:00:00.00 | Mem:0.00M, Peak:0.00M | A, B | info"
      = some
          { frame := some "1".data
          , mg := some "24x5".data
          , rt := some "00:00.00".data
          , rem := none
          , mc := some "0.00".data
          , mcp := some "0.00".data
          , scene := some "A".data
          , layer := some "B".data
          , info := some "info".data
          , extra := none } := by decide
  simp only [parseBlenderOutputLine, h, Option.getD_some, Option.map_some',
    Option.map_none', Option.some.injEq]
  show jsParseFloat (String.mk ("24".data ++ 'x' :: "5".data)) = (24 : ℚ)
  rw [jsParseFloat_junk "24".data 'x' "5".data (by decide) (by decide) (by decide)
      (by decide) (by decide),
    show digitsVal "24".data = 24 by decide]
  norm_num

/-- C7, counterexample.  The claim says that when some line carries the
sentinel prefix, the JSON payload after the prefix of the first such
line is decoded and returned.  This line carries the prefix and its
payload is valid JSON — the one-element array holding the string
`render_farm_data=` — but because the payload itself contains the
sentinel text, the code's `line.split(getDataScriptPrefix)[1]` truncates
it at the inner occurrence and `JSON.parse` throws: `getDevices` raises
instead of returning the decoded payload. -/
theorem sentinel_in_payload_cex :
    ("render_farm_data=[\"render_farm_data=\"]" : String).data
      = getDataScriptPfx ++ "[\"render_farm_data=\"]".data
    ∧ jsonParse "[\"render_farm_data=\"]".data
      = .ok (.arr [.str "render_farm_data="])
    ∧ getDevices "render_farm_data=[\"render_farm_data=\"]"
      = .error (.jsonRaise "unterminated string in JSON") :=
  ⟨by decide, rfl, rfl⟩

/-- C7, amended.  `getDevices`: when no captured stdout line starts with
the sentinel prefix the probe throws `'invalid stdout'` (the spec's
`InvalidOutputError`); when some line does, the code decodes
`line.split(prefix)[1]` of the first such line — the text up to the next
occurrence of the sentinel — which is the whole JSON payload after the
prefix exactly when that payload does not itself contain the sentinel
text, and returns the decoded value. -/
theorem getDevices_sentinel_spec (stdout : String) :
    ((∀ l ∈ jsSplit nlSep stdout.data, getDataScriptPfx.isPrefixOf l = false) →
      getDevices stdout = .error .invalidStdout)
    ∧ (∀ l rest j,
        (jsSplit nlSep stdout.data).find?
            (fun l => getDataScriptPfx.isPrefixOf l) = some l →
        l = getDataScriptPfx ++ rest →
        containsSeq getDataScriptPfx rest = false →
        jsonParse rest = .ok j →
        getDevices stdout = .ok j) := by
  constructor
  · intro h
    have hf : (jsSplit nlSep stdout.data).find?
        (fun l => getDataScriptPfx.isPrefixOf l) = none :=
      List.find?_eq_none.mpr (fun x hx => by simp [h x hx])
    simp [getDevices, hf]
  · intro l rest j hf hl hocc hj
    subst hl
    simp [getDevices, hf, sentinelPayload_eq rest hocc, hj]

/-- C7, witness: a run with no sentinel line throws, a run with one
returns the decoded device list. -/
theorem getDevices_sentinel_spec_witness :
    getDevices "Blender 2.83" = .error .invalidStdout
    ∧ getDevices "Blender 2.83\nrender_farm_data=[0,1]" = .ok (.arr [.num 0, .num 1]) :=
  ⟨(getDevices_sentinel_spec "Blender 2.83").1 (by decide),
   (getDevices_sentinel_spec "Blender 2.83\nrender_farm_data=[0,1]").2
     "render_farm_data=[0,1]".data "[0,1]".data (.arr [.num 0, .num 1])
     (by decide) (by decide) (by decide) rfl⟩

/-- C8, counterexample.  The claim says a stdout chunk containing only
non-sentinel lines leaves the probe promise pending; the `getData` data
handler actually falls through its line loop and explicitly rejects the
promise with `'invalid stdout'` (without killing the subprocess). -/
theorem chunk_without_sentinel_rejects :
    getDataChunk "Blender 2.83.0" = ⟨.reject "invalid stdout", false⟩ := rfl

/-- C8, amended.  While the subprocess is running, a stdout chunk whose
lines all lack the sentinel prefix immediately and explicitly rejects the
probe promise with `'invalid stdout'`; the promise is left pending only
when no stdout chunk arrives at all. -/
theorem chunk_without_sentinel_rejects_all (chunk : String)
    (h : ∀ l ∈ jsSplit nlSep chunk.data, getDataScriptPfx.isPrefixOf l = false) :
    getDataChunk chunk = ⟨.reject "invalid stdout", false⟩ := by
  have hf : (jsSplit nlSep chunk.data).find?
      (fun l => getDataScriptPfx.isPrefixOf l) = none :=
    List.find?_eq_none.mpr (fun x hx => by simp [h x hx])
  simp [getDataChunk, hf]

/-- C8, witness for the amended theorem at a concrete banner chunk. -/
theorem chunk_without_sentinel_rejects_all_witness :
    getDataChunk "Blender 2.83 (sub 0)\nRead blend: job.blend"
      = ⟨.reject "invalid stdout", false⟩ :=
  chunk_without_sentinel_rejects_all "Blender 2.83 (sub 0)\nRead blend: job.blend"
    (by decide)

/-- C9.  When the first sentinel-prefixed line's payload is not valid
JSON, `getDevices` and the `getData` chunk handler let the `JSON.parse`
exception escape instead of returning, resolving, or signalling the
documented `'invalid stdout'` protocol error. -/
theorem json_exception_escapes :
    (∀ (stdout : String) l e,
      (jsSplit nlSep stdout.data).find?
          (fun l => getDataScriptPfx.isPrefixOf l) = some l →
      jsonParse (sentinelPayload l) = .error e →
      getDevices stdout = .error (.jsonRaise e))
    ∧ (∀ (chunk : String) l e,
      (jsSplit nlSep chunk.data).find?
          (fun l => getDataScriptPfx.isPrefixOf l) = some l →
      jsonParse (sentinelPayload l) = .error e →
      getDataChunk chunk = ⟨.raise e, false⟩) := by
  constructor
  · intro stdout l e hf hj
    simp [getDevices, hf, hj]
  · intro chunk l e hf hj
    simp [getDataChunk, hf, hj]

/-- C9, witness: an invalid payload after the sentinel raises the parse
error in both probes. -/
theorem json_exception_escapes_witness :
    getDevices "render_farm_data=oops" = .error (.jsonRaise "unexpected token")
    ∧ getDataChunk "render_farm_data=oops" = ⟨.raise "unexpected token", false⟩ :=
  ⟨json_exception_escapes.1 "render_farm_data=oops"
     "render_farm_data=oops".data "unexpected token" (by decide) rfl,
   json_exception_escapes.2 "render_farm_data=oops"
     "render_farm_data=oops".data "unexpected token" (by decide) rfl⟩

/-- C10.  The `getData` handlers call `child.kill()` exactly on the
successful path, immediately before resolving: the chunk handler's
outcome is killed if and only if it resolves, and the subprocess `error`
handler rejects without killing. -/
theorem kill_only_on_resolve :
    (∀ chunk : String,
      (getDataChunk chunk).killed = true
        ↔ ∃ j, (getDataChunk chunk).settle = ChunkSettle.resolve j)
    ∧ ∀ e, getDataOnError e = ⟨.reject e, false⟩ := by
  constructor
  · intro chunk
    cases hf : (jsSplit nlSep chunk.data).find?
        (fun l => getDataScriptPfx.isPrefixOf l) with
    | none => simp [getDataChunk, hf]
    | some l =>
      cases hj : jsonParse (sentinelPayload l) with
      | ok j => simp [getDataChunk, hf, hj]
      | error e => simp [getDataChunk, hf, hj]
  · intro e
    rfl

end BlenderFarm
